import Mathlib

/-!
Shallow embedding of the two ink! voting contracts of this repository:

* `src/voting/lib.rs` — the basic variant (module embedded in namespace
  `voting`): a fixed candidate registry plus a per-candidate tally.
* `src/voting_with_contrains/lib.rs` — the extended variant (namespace
  `voting_with_contrains`): the registry and tally plus a purchasable
  ticket economy and a per-(voter, candidate) vote ledger.

Modelling conventions:

* `AccountId` is modelled as `Nat` (an opaque identifier compared by
  equality in the source).
* `u32` counters are modelled as `Nat`; the spec types every counter as
  `uint` and claim C10 shows that in reachable states all counters stay
  bounded by `total_tokens`, so the `u32` additions never wrap.
* `ink_storage::collections::HashMap` is modelled as an association list
  (`List (K × Nat)`) with replace-on-insert semantics (`HM.hmSet`); only
  `get`-, `contains_key`-, `len`- and value-sum observations are used, so
  the bucket order of the real hash map is irrelevant.
* The `in_candidate_list : HashMap<AccountId, ()>` field holds only its
  key set; collecting `lists.map (x, ())` into a hash map yields exactly
  the distinct elements of `lists`, so the field is modelled as
  `lists.dedup` (same membership, same `len`).
* The constructor `assert!` and the `u32` division-by-zero panic in
  `buy_ticket` are modelled with `Option`: `none` is a panic/abort.
* Event emission is modelled by returning the list of `VoteEvent`s the
  call emits (the source emits via `self.env().emit_event`, with
  `from = self.env().caller()`, modelled as an explicit `caller`
  argument).
-/

abbrev AccountId := Nat

namespace HM

variable {K : Type} [DecidableEq K]

/-- `HashMap::get`, on the association-list model. -/
def hmGet : List (K × Nat) → K → Option Nat
  | [], _ => none
  | p :: ps, k => if p.1 = k then some p.2 else hmGet ps k

/-- `*map.get(&k).unwrap_or(&0)`. -/
def hmGetD (m : List (K × Nat)) (k : K) : Nat :=
  (hmGet m k).getD 0

/-- `HashMap::insert`: replace the binding if the key is present, append it
otherwise. -/
def hmSet : List (K × Nat) → K → Nat → List (K × Nat)
  | [], k, v => [(k, v)]
  | p :: ps, k, v => if p.1 = k then (k, v) :: ps else p :: hmSet ps k v

/-- `map.entry(k).and_modify(f)`: modify the binding if present, do nothing
otherwise. -/
def hmEntryModify (m : List (K × Nat)) (k : K) (f : Nat → Nat) : List (K × Nat) :=
  match hmGet m k with
  | some w => hmSet m k (f w)
  | none => m

/-- `map.entry(k).and_modify(f).or_insert(v)`. -/
def hmEntryModifyOrInsert (m : List (K × Nat)) (k : K) (f : Nat → Nat) (v : Nat) :
    List (K × Nat) :=
  match hmGet m k with
  | some w => hmSet m k (f w)
  | none => hmSet m k v

/-- Sum of all values stored in the map. -/
def hmSum (m : List (K × Nat)) : Nat :=
  (m.map (fun p => p.2)).sum

end HM

open HM

namespace voting

/-- Storage struct of the basic contract (`src/voting/lib.rs`).
`in_candidate_list : HashMap<AccountId, ()>` is modelled by its key list
(the distinct elements of the constructor input, see the header note). -/
structure Voting where
  votes_received : List (AccountId × Nat)
  candidate_list : List AccountId
  in_candidate_list : List AccountId
deriving DecidableEq, Repr

/-- The `VoteEvent` emitted on a successful vote (`from` is a Lean keyword,
so the field is named `from_`). -/
structure VoteEvent where
  from_ : AccountId
  to_ : AccountId
deriving DecidableEq, Repr

/-- Return type of `get_current_votes`. -/
structure CurrentVote where
  candidate_list : List AccountId
  current_vote : List Nat
deriving DecidableEq, Repr

/-- Constructor `Voting::new(lists)`; `none` models the `assert!` panic on
`in_candidate_list.len() != candidate_list.len()` (i.e. duplicate input). -/
def new (lists : List AccountId) : Option Voting :=
  if lists.dedup.length = lists.length then
    some { votes_received := []
           candidate_list := lists
           in_candidate_list := lists.dedup }
  else
    none

/-- `get_candidates_len`. -/
def get_candidates_len (s : Voting) : Nat :=
  s.candidate_list.length

/-- `get_candidates`. -/
def get_candidates (s : Voting) : List AccountId :=
  s.candidate_list

/-- `my_value_or_zero`: `*self.votes_received.get(&of).unwrap_or(&0)`. -/
def my_value_or_zero (s : Voting) (of : AccountId) : Nat :=
  hmGetD s.votes_received of

/-- `total_votes_for`. -/
def total_votes_for (s : Voting) (candidate : AccountId) : Nat :=
  my_value_or_zero s candidate

/-- `get_current_votes`: the candidate list together with the per-candidate
counters pushed in the same order (the source loops over
`candidate_list` pushing `my_value_or_zero(x)`). -/
def get_current_votes (s : Voting) : CurrentVote :=
  { candidate_list := s.candidate_list
    current_vote := s.candidate_list.map (fun x => my_value_or_zero s x) }

/-- `vote_candidate_without_event`: reject non-members, otherwise
`votes_received.entry(candidate).and_modify(|v| *v += 1).or_insert(1)`.
Returns the `bool` result and the post state. -/
def vote_candidate_without_event (s : Voting) (candidate : AccountId) :
    Bool × Voting :=
  if candidate ∈ s.in_candidate_list then
    (true, { s with votes_received :=
      hmEntryModifyOrInsert s.votes_received candidate (fun v => v + 1) 1 })
  else
    (false, s)

/-- `vote_candidate`: delegates to `vote_candidate_without_event` and emits
one `VoteEvent { from: caller, to: candidate }` iff it returned `true`.
The emitted events are returned explicitly. -/
def vote_candidate (caller : AccountId) (s : Voting) (candidate : AccountId) :
    Bool × Voting × List VoteEvent :=
  let r := vote_candidate_without_event s candidate
  if r.1 then (true, r.2, [{ from_ := caller, to_ := candidate }])
  else (false, r.2, [])

/-- Iterated `vote_candidate_without_event` on a fixed candidate (used to
state the "N successful votes yield tally N" property). -/
def voteN (s : Voting) (candidate : AccountId) : Nat → Voting
  | 0 => s
  | n + 1 => (vote_candidate_without_event (voteN s candidate n) candidate).2

/-- Sequences of basic-variant mutating operations: the only mutating entry
point is `vote_candidate`. -/
def runVotes (s : Voting) : List AccountId → Voting
  | [] => s
  | c :: cs => runVotes (vote_candidate_without_event s c).2 cs

end voting

namespace voting_with_contrains

/-- Storage struct of the extended contract
(`src/voting_with_contrains/lib.rs`). -/
structure Voting where
  votes_received : List (AccountId × Nat)
  candidate_list : List AccountId
  in_candidate_list : List AccountId
  total_tokens : Nat
  balance_tokens : Nat
  token_price : Nat
  vote_num : List ((AccountId × AccountId) × Nat)
  voter_balance : List (AccountId × Nat)
deriving DecidableEq, Repr

/-- The `VoteEvent` of the extended contract. -/
structure VoteEvent where
  from_ : AccountId
  to_ : AccountId
deriving DecidableEq, Repr

/-- Entry of the `get_current_votes` result. -/
structure VoteOfCandidate where
  candidate : AccountId
  vote : Nat
deriving DecidableEq, Repr

/-- Constructor `Voting::new(lists, total_tokens, token_price)`; `none`
models the duplicate-candidates `assert!` panic.  `balance_tokens` starts
at `total_tokens`. -/
def new (lists : List AccountId) (total_tokens token_price : Nat) : Option Voting :=
  if lists.dedup.length = lists.length then
    some { votes_received := []
           candidate_list := lists
           in_candidate_list := lists.dedup
           total_tokens := total_tokens
           balance_tokens := total_tokens
           token_price := token_price
           vote_num := []
           voter_balance := [] }
  else
    none

/-- `voter_ticket_balance`: `*self.voter_balance.get(&owner).unwrap_or(&0)`. -/
def voter_ticket_balance (s : Voting) (owner : AccountId) : Nat :=
  hmGetD s.voter_balance owner

/-- `buy_ticket`: `amount = value / token_price` (`u32` division — panics,
modelled as `none`, when `token_price = 0`); fails when
`amount > balance_tokens`; otherwise inserts (new buyer) or adds (existing
buyer) `amount` into `voter_balance` and subtracts it from
`balance_tokens`. -/
def buy_ticket (s : Voting) (owner : AccountId) (value : Nat) :
    Option (Bool × Voting) :=
  if s.token_price = 0 then
    none
  else
    let amount := value / s.token_price
    if amount > s.balance_tokens then
      some (false, s)
    else
      let vb :=
        if (hmGet s.voter_balance owner).isNone then
          hmSet s.voter_balance owner amount
        else
          hmEntryModify s.voter_balance owner (fun v => v + amount)
      some (true, { s with
        voter_balance := vb
        balance_tokens := s.balance_tokens - amount })

/-- `all_ticket_num`. -/
def all_ticket_num (s : Voting) : Nat :=
  s.total_tokens

/-- `left_ticket_num`. -/
def left_ticket_num (s : Voting) : Nat :=
  s.balance_tokens

/-- `price_of_ticket`. -/
def price_of_ticket (s : Voting) : Nat :=
  s.token_price

/-- `get_candidates_len`. -/
def get_candidates_len (s : Voting) : Nat :=
  s.candidate_list.length

/-- `get_candidates`. -/
def get_candidates (s : Voting) : List AccountId :=
  s.candidate_list

/-- `my_value_or_zero`. -/
def my_value_or_zero (s : Voting) (of : AccountId) : Nat :=
  hmGetD s.votes_received of

/-- `total_votes_for`. -/
def total_votes_for (s : Voting) (candidate : AccountId) : Nat :=
  my_value_or_zero s candidate

/-- `callee_vote_of`: `*self.vote_num.get(&(callee, candidate)).unwrap_or(&0)`. -/
def callee_vote_of (s : Voting) (callee candidate : AccountId) : Nat :=
  hmGetD s.vote_num (callee, candidate)

/-- `get_current_votes`: one `VoteOfCandidate` per candidate, pushed in
`candidate_list` order. -/
def get_current_votes (s : Voting) : List VoteOfCandidate :=
  s.candidate_list.map (fun x => { candidate := x, vote := my_value_or_zero s x })

/-- `vote_candidate_without_event(owner, candidate, amout)`:
1. reject if `candidate` is not in `in_candidate_list`;
2. reject if `voter_ticket_balance(owner) < amout`;
3. otherwise subtract `amout` from `voter_balance[owner]` (`and_modify`
   only — no `or_insert`), add `amout` to `vote_num[(owner, candidate)]`
   and to `votes_received[candidate]` (`and_modify ... or_insert(amout)`). -/
def vote_candidate_without_event (s : Voting) (owner candidate : AccountId)
    (amout : Nat) : Bool × Voting :=
  if candidate ∈ s.in_candidate_list then
    let ticket_num := voter_ticket_balance s owner
    if ticket_num < amout then
      (false, s)
    else
      (true, { s with
        voter_balance := hmEntryModify s.voter_balance owner (fun v => v - amout)
        vote_num :=
          hmEntryModifyOrInsert s.vote_num (owner, candidate) (fun v => v + amout) amout
        votes_received :=
          hmEntryModifyOrInsert s.votes_received candidate (fun v => v + amout) amout })
  else
    (false, s)

/-- `vote_candidate`: delegates to `vote_candidate_without_event` and emits
one `VoteEvent { from: caller, to: candidate }` iff it returned `true`. -/
def vote_candidate (caller : AccountId) (s : Voting) (owner candidate : AccountId)
    (amout : Nat) : Bool × Voting × List VoteEvent :=
  let r := vote_candidate_without_event s owner candidate amout
  if r.1 then (true, r.2, [{ from_ := caller, to_ := candidate }])
  else (false, r.2, [])

/-- A mutating entry point of the extended contract. -/
inductive Op where
  | buy (owner : AccountId) (value : Nat)
  | vote (caller owner candidate : AccountId) (amout : Nat)
deriving DecidableEq, Repr

/-- Run one operation; `none` propagates a `buy_ticket` division panic. -/
def runOp (s : Voting) : Op → Option Voting
  | Op.buy owner value => (buy_ticket s owner value).map (fun r => r.2)
  | Op.vote caller owner candidate amout =>
      some (vote_candidate caller s owner candidate amout).2.1

/-- Run a sequence of mutating operations. -/
def runOps (s : Voting) : List Op → Option Voting
  | [] => some s
  | op :: ops =>
      match runOp s op with
      | none => none
      | some s2 => runOps s2 ops

end voting_with_contrains


/-! ## Invariant definitions and concrete witness states -/

/-- Tally-key invariant of the basic variant (spec §3): a counter may only
exist in `votes_received` for a candidate present in the Candidate Set. -/
abbrev voting.TallyInv (s : voting.Voting) : Prop :=
  ∀ p ∈ s.votes_received, p.1 ∈ s.in_candidate_list

/-- Tally-key invariant of the extended variant. -/
abbrev voting_with_contrains.TallyInv (s : voting_with_contrains.Voting) : Prop :=
  ∀ p ∈ s.votes_received, p.1 ∈ s.in_candidate_list

/-- Ticket conservation of the extended variant: the remaining supply plus
all unspent voter balances plus all spent (pair-count) tickets equals the
fixed total, and the tally column sums to the same total as the pair
counts. -/
def voting_with_contrains.Conserved (s : voting_with_contrains.Voting) : Prop :=
  s.balance_tokens + hmSum s.voter_balance + hmSum s.vote_num = s.total_tokens ∧
  hmSum s.votes_received = hmSum s.vote_num

/-- Concrete basic-variant state: fresh construction on candidates `[1, 2]`. -/
def sB0 : voting.Voting :=
  { votes_received := [], candidate_list := [1, 2], in_candidate_list := [1, 2] }

/-- Concrete extended-variant state: fresh construction on candidates
`[1, 2]` with 10 tickets at price 1. -/
def sE0 : voting_with_contrains.Voting :=
  { votes_received := [], candidate_list := [1, 2], in_candidate_list := [1, 2]
    total_tokens := 10, balance_tokens := 10, token_price := 1
    vote_num := [], voter_balance := [] }

/-- Concrete extended-variant state reached from `sE0` by
`buy_ticket(5, 3)` then `vote_candidate(5, 1, 2)`. -/
def sE2 : voting_with_contrains.Voting :=
  { votes_received := [(1, 2)], candidate_list := [1, 2], in_candidate_list := [1, 2]
    total_tokens := 10, balance_tokens := 7, token_price := 1
    vote_num := [((5, 1), 2)], voter_balance := [(5, 1)] }

/-- Concrete extended-variant state: fresh construction with
`token_price = 0`. -/
def sE3 : voting_with_contrains.Voting :=
  { votes_received := [], candidate_list := [1, 2], in_candidate_list := [1, 2]
    total_tokens := 10, balance_tokens := 10, token_price := 0
    vote_num := [], voter_balance := [] }

/-- Concrete extended-variant state with `token_price = 2` and a partly
sold supply. -/
def sE4 : voting_with_contrains.Voting :=
  { votes_received := [], candidate_list := [1, 2], in_candidate_list := [1, 2]
    total_tokens := 10, balance_tokens := 8, token_price := 2
    vote_num := [], voter_balance := [(5, 3)] }

/-! ## Lemmas about the association-list map model -/

namespace HM

variable {K : Type} [DecidableEq K]

theorem hmGet_hmSet_self (m : List (K × Nat)) (k : K) (v : Nat) :
    hmGet (hmSet m k v) k = some v := by
  induction m with
  | nil => simp [hmSet, hmGet]
  | cons p ps ih =>
    by_cases h : p.1 = k
    · simp [hmSet, hmGet, h]
    · simp [hmSet, hmGet, h, ih]

theorem hmGet_hmSet_ne (m : List (K × Nat)) (k : K) (v : Nat) (k2 : K) (h : k2 ≠ k) :
    hmGet (hmSet m k v) k2 = hmGet m k2 := by
  have h2 : ¬ (k = k2) := fun hh => h hh.symm
  induction m with
  | nil => simp [hmSet, hmGet, h2]
  | cons p ps ih =>
    by_cases hp : p.1 = k
    · subst hp
      simp [hmSet, hmGet, h2]
    · simp [hmSet, hmGet, hp, ih]

theorem hmGetD_hmSet_self (m : List (K × Nat)) (k : K) (v : Nat) :
    hmGetD (hmSet m k v) k = v := by
  simp [hmGetD, hmGet_hmSet_self]

theorem hmGetD_hmSet_ne (m : List (K × Nat)) (k : K) (v : Nat) (k2 : K) (h : k2 ≠ k) :
    hmGetD (hmSet m k v) k2 = hmGetD m k2 := by
  simp [hmGetD, hmGet_hmSet_ne m k v k2 h]

theorem hmSum_hmSet_of_get_some (m : List (K × Nat)) (k : K) (v w : Nat)
    (h : hmGet m k = some w) :
    hmSum (hmSet m k v) + w = hmSum m + v := by
  induction m with
  | nil => simp [hmGet] at h
  | cons p ps ih =>
    by_cases hp : p.1 = k
    · simp [hmGet, hp] at h
      subst h
      simp [hmSet, hmGet, hp, hmSum]
      omega
    · simp [hmGet, hp] at h
      have hs := ih h
      simp [hmSet, hp, hmSum] at hs ⊢
      omega

theorem hmSum_hmSet_of_get_none (m : List (K × Nat)) (k : K) (v : Nat)
    (h : hmGet m k = none) :
    hmSum (hmSet m k v) = hmSum m + v := by
  induction m with
  | nil => simp [hmSet, hmSum]
  | cons p ps ih =>
    by_cases hp : p.1 = k
    · simp [hmGet, hp] at h
    · simp [hmGet, hp] at h
      have hs := ih h
      simp [hmSet, hp, hmSum] at hs ⊢
      omega

theorem hmGetD_le_hmSum (m : List (K × Nat)) (k : K) :
    hmGetD m k ≤ hmSum m := by
  induction m with
  | nil => simp [hmGetD, hmGet, hmSum]
  | cons p ps ih =>
    by_cases hp : p.1 = k
    · simp [hmGetD, hmGet, hp, hmSum]
    · simp only [hmGetD, hmGet, hp, if_false, hmSum, List.map_cons, List.sum_cons] at ih ⊢
      omega

theorem hmGet_hmSet_isSome (m : List (K × Nat)) (k : K) (v : Nat) (k2 : K)
    (h : (hmGet (hmSet m k v) k2).isSome) :
    k2 = k ∨ (hmGet m k2).isSome := by
  by_cases hk : k2 = k
  · exact Or.inl hk
  · right
    rwa [hmGet_hmSet_ne m k v k2 hk] at h

theorem hmGetD_emoi_add_self (m : List (K × Nat)) (k : K) (a : Nat) :
    hmGetD (hmEntryModifyOrInsert m k (fun v => v + a) a) k = hmGetD m k + a := by
  unfold hmEntryModifyOrInsert
  cases h : hmGet m k with
  | none => simp [hmGetD, h, hmGet_hmSet_self]
  | some w => simp [hmGetD, h, hmGet_hmSet_self]

theorem hmGetD_emoi_ne (m : List (K × Nat)) (k : K) (f : Nat → Nat) (v : Nat)
    (k2 : K) (h : k2 ≠ k) :
    hmGetD (hmEntryModifyOrInsert m k f v) k2 = hmGetD m k2 := by
  unfold hmEntryModifyOrInsert
  cases hg : hmGet m k with
  | none => simp [hmGetD, hmGet_hmSet_ne m k v k2 h]
  | some w => simp [hmGetD, hmGet_hmSet_ne m k (f w) k2 h]

theorem hmGetD_emod_ne (m : List (K × Nat)) (k : K) (f : Nat → Nat)
    (k2 : K) (h : k2 ≠ k) :
    hmGetD (hmEntryModify m k f) k2 = hmGetD m k2 := by
  unfold hmEntryModify
  cases hg : hmGet m k with
  | none => rfl
  | some w => simp [hmGetD, hmGet_hmSet_ne m k (f w) k2 h]

theorem hmGetD_emod_sub_self (m : List (K × Nat)) (k : K) (a : Nat)
    (h : a ≤ hmGetD m k) :
    hmGetD (hmEntryModify m k (fun v => v - a)) k + a = hmGetD m k := by
  unfold hmEntryModify
  cases hg : hmGet m k with
  | none =>
    simp [hmGetD, hg] at h ⊢
    omega
  | some w =>
    simp [hmGetD, hg] at h ⊢
    simp [hmGet_hmSet_self]
    omega

theorem hmSum_emoi_add (m : List (K × Nat)) (k : K) (a : Nat) :
    hmSum (hmEntryModifyOrInsert m k (fun v => v + a) a) = hmSum m + a := by
  unfold hmEntryModifyOrInsert
  cases hg : hmGet m k with
  | none => exact hmSum_hmSet_of_get_none m k a hg
  | some w =>
    show hmSum (hmSet m k (w + a)) = hmSum m + a
    have hs := hmSum_hmSet_of_get_some m k (w + a) w hg
    omega

theorem hmSum_emod_sub (m : List (K × Nat)) (k : K) (a : Nat)
    (h : a ≤ hmGetD m k) :
    hmSum (hmEntryModify m k (fun v => v - a)) + a = hmSum m := by
  unfold hmEntryModify
  cases hg : hmGet m k with
  | none =>
    simp [hmGetD, hg] at h
    show hmSum m + a = hmSum m
    omega
  | some w =>
    show hmSum (hmSet m k (w - a)) + a = hmSum m
    have hs := hmSum_hmSet_of_get_some m k (w - a) w hg
    simp [hmGetD, hg] at h
    omega

theorem hmGet_emoi_isSome (m : List (K × Nat)) (k : K) (f : Nat → Nat) (v : Nat)
    (k2 : K) (h : (hmGet (hmEntryModifyOrInsert m k f v) k2).isSome) :
    k2 = k ∨ (hmGet m k2).isSome := by
  unfold hmEntryModifyOrInsert at h
  cases hg : hmGet m k with
  | none =>
    rw [hg] at h
    exact hmGet_hmSet_isSome m k v k2 h
  | some w =>
    rw [hg] at h
    exact hmGet_hmSet_isSome m k (f w) k2 h

end HM


/-- `lists.dedup.length = lists.length ↔ lists.Nodup`: the constructor
`assert!(in_candidate_list.len() == candidate_list.len())` succeeds exactly
on duplicate-free candidate sequences. -/
theorem dedup_length_eq_iff_nodup (lists : List AccountId) :
    lists.dedup.length = lists.length ↔ lists.Nodup := by
  constructor
  · intro h
    have hsub : lists.dedup.Sublist lists := List.dedup_sublist lists
    have heq : lists.dedup = lists := hsub.eq_of_length h
    rw [← heq]
    exact lists.nodup_dedup
  · intro h
    rw [List.dedup_eq_self.mpr h]

/-! ## Further map lemmas -/

theorem hm_mem_hmSet {K : Type} [DecidableEq K] (m : List (K × Nat)) (k : K)
    (v : Nat) (p : K × Nat) (h : p ∈ hmSet m k v) : p = (k, v) ∨ p ∈ m := by
  induction m with
  | nil =>
    simp [hmSet] at h
    exact Or.inl h
  | cons q qs ih =>
    by_cases hq : q.1 = k
    · simp [hmSet, hq] at h
      rcases h with h | h
      · exact Or.inl (by simp [h])
      · exact Or.inr (List.mem_cons_of_mem q h)
    · simp [hmSet, hq] at h
      rcases h with h | h
      · exact Or.inr (by simp [h])
      · rcases ih h with h2 | h2
        · exact Or.inl h2
        · exact Or.inr (List.mem_cons_of_mem q h2)

theorem hm_mem_emoi {K : Type} [DecidableEq K] (m : List (K × Nat)) (k : K)
    (f : Nat → Nat) (v : Nat) (p : K × Nat)
    (h : p ∈ hmEntryModifyOrInsert m k f v) : p.1 = k ∨ p ∈ m := by
  unfold hmEntryModifyOrInsert at h
  cases hg : hmGet m k with
  | none =>
    rw [hg] at h
    rcases hm_mem_hmSet m k v p h with h2 | h2
    · exact Or.inl (by rw [h2])
    · exact Or.inr h2
  | some w =>
    rw [hg] at h
    rcases hm_mem_hmSet m k (f w) p h with h2 | h2
    · exact Or.inl (by rw [h2])
    · exact Or.inr h2

theorem hm_buyvb_getD_self {K : Type} [DecidableEq K] (m : List (K × Nat))
    (o : K) (a : Nat) :
    hmGetD (if (hmGet m o).isNone then hmSet m o a
            else hmEntryModify m o (fun v => v + a)) o = hmGetD m o + a := by
  cases hg : hmGet m o with
  | none => simp [hg, hmGetD, hmGet_hmSet_self]
  | some w => simp [hg, hmEntryModify, hmGetD, hmGet_hmSet_self]

theorem hm_buyvb_getD_ne {K : Type} [DecidableEq K] (m : List (K × Nat))
    (o : K) (a : Nat) (b : K) (h : b ≠ o) :
    hmGetD (if (hmGet m o).isNone then hmSet m o a
            else hmEntryModify m o (fun v => v + a)) b = hmGetD m b := by
  cases hg : hmGet m o with
  | none => simp [hg, hmGetD, hmGet_hmSet_ne m o a b h]
  | some w => simp [hg, hmEntryModify, hmGetD, hmGet_hmSet_ne m o (w + a) b h]

theorem hm_buyvb_sum {K : Type} [DecidableEq K] (m : List (K × Nat))
    (o : K) (a : Nat) :
    hmSum (if (hmGet m o).isNone then hmSet m o a
           else hmEntryModify m o (fun v => v + a)) = hmSum m + a := by
  cases hg : hmGet m o with
  | none =>
    simp [hg]
    exact hmSum_hmSet_of_get_none m o a hg
  | some w =>
    simp [hg, hmEntryModify]
    have hs := hmSum_hmSet_of_get_some m o (w + a) w hg
    omega

/-! ## Helper lemmas: basic variant -/

theorem voting_new_elim (lists : List AccountId) (s : voting.Voting)
    (h : voting.new lists = some s) :
    s.votes_received = [] ∧ s.candidate_list = lists ∧
    s.in_candidate_list = lists.dedup := by
  unfold voting.new at h
  split at h
  · simp only [Option.some.injEq] at h
    subst h
    exact ⟨rfl, rfl, rfl⟩
  · cases h

theorem voting_vcwe_fields (s : voting.Voting) (c : AccountId) :
    ((voting.vote_candidate_without_event s c).2).in_candidate_list
      = s.in_candidate_list ∧
    ((voting.vote_candidate_without_event s c).2).candidate_list
      = s.candidate_list := by
  unfold voting.vote_candidate_without_event
  split
  · exact ⟨rfl, rfl⟩
  · exact ⟨rfl, rfl⟩

theorem voting_vcwe_nonmember (s : voting.Voting) (c : AccountId)
    (hc : c ∉ s.in_candidate_list) :
    voting.vote_candidate_without_event s c = (false, s) := by
  simp [voting.vote_candidate_without_event, hc]

theorem voting_vcwe_member (s : voting.Voting) (c : AccountId)
    (hc : c ∈ s.in_candidate_list) :
    (voting.vote_candidate_without_event s c).1 = true ∧
    voting.total_votes_for (voting.vote_candidate_without_event s c).2 c
      = voting.total_votes_for s c + 1 := by
  constructor
  · simp [voting.vote_candidate_without_event, hc]
  · simp only [voting.vote_candidate_without_event, hc, if_pos]
    exact hmGetD_emoi_add_self s.votes_received c 1

theorem voting_tally_mono (s : voting.Voting) (c d : AccountId) :
    voting.total_votes_for s d ≤
      voting.total_votes_for (voting.vote_candidate_without_event s c).2 d := by
  by_cases hc : c ∈ s.in_candidate_list
  · by_cases hdc : d = c
    · subst hdc
      have hm := voting_vcwe_member s d hc
      omega
    · have hne := hmGetD_emoi_ne s.votes_received c (fun v => v + 1) 1 d hdc
      simp [voting.vote_candidate_without_event, hc, voting.total_votes_for,
        voting.my_value_or_zero, hne]
  · simp [voting.vote_candidate_without_event, hc]

theorem voting_voteN_tally (s : voting.Voting) (c : AccountId)
    (hc : c ∈ s.in_candidate_list) (n : Nat) :
    voting.total_votes_for (voting.voteN s c n) c
      = voting.total_votes_for s c + n ∧
    (voting.voteN s c n).in_candidate_list = s.in_candidate_list := by
  induction n with
  | zero => exact ⟨rfl, rfl⟩
  | succ n ih =>
    have hc2 : c ∈ (voting.voteN s c n).in_candidate_list := by
      rw [ih.2]; exact hc
    have hm := voting_vcwe_member (voting.voteN s c n) c hc2
    have hf := voting_vcwe_fields (voting.voteN s c n) c
    constructor
    · show voting.total_votes_for
        (voting.vote_candidate_without_event (voting.voteN s c n) c).2 c = _
      rw [hm.2, ih.1]
      omega
    · show ((voting.vote_candidate_without_event (voting.voteN s c n) c).2).in_candidate_list = _
      rw [hf.1, ih.2]

theorem voting_runVotes_fields (s : voting.Voting) (cs : List AccountId) :
    (voting.runVotes s cs).candidate_list = s.candidate_list ∧
    (voting.runVotes s cs).in_candidate_list = s.in_candidate_list := by
  induction cs generalizing s with
  | nil => exact ⟨rfl, rfl⟩
  | cons c cs ih =>
    have hf := voting_vcwe_fields s c
    have hr := ih (voting.vote_candidate_without_event s c).2
    exact ⟨hr.1.trans hf.2, hr.2.trans hf.1⟩

/-! ## Helper lemmas: extended variant -/

theorem vwc_new_elim (lists : List AccountId) (t p : Nat)
    (s : voting_with_contrains.Voting)
    (h : voting_with_contrains.new lists t p = some s) :
    s.votes_received = [] ∧ s.candidate_list = lists ∧
    s.in_candidate_list = lists.dedup ∧ s.total_tokens = t ∧
    s.balance_tokens = t ∧ s.token_price = p ∧
    s.vote_num = [] ∧ s.voter_balance = [] := by
  unfold voting_with_contrains.new at h
  split at h
  · simp only [Option.some.injEq] at h
    subst h
    exact ⟨rfl, rfl, rfl, rfl, rfl, rfl, rfl, rfl⟩
  · cases h

theorem vwc_vcwe_nonmember (s : voting_with_contrains.Voting)
    (o c : AccountId) (a : Nat) (hc : c ∉ s.in_candidate_list) :
    voting_with_contrains.vote_candidate_without_event s o c a = (false, s) := by
  simp [voting_with_contrains.vote_candidate_without_event, hc]

theorem vwc_vcwe_insufficient (s : voting_with_contrains.Voting)
    (o c : AccountId) (a : Nat) (hc : c ∈ s.in_candidate_list)
    (hb : voting_with_contrains.voter_ticket_balance s o < a) :
    voting_with_contrains.vote_candidate_without_event s o c a = (false, s) := by
  simp [voting_with_contrains.vote_candidate_without_event, hc, hb]

theorem vwc_vcwe_success (s : voting_with_contrains.Voting)
    (o c : AccountId) (a : Nat) (hc : c ∈ s.in_candidate_list)
    (hb : a ≤ voting_with_contrains.voter_ticket_balance s o) :
    voting_with_contrains.vote_candidate_without_event s o c a =
      (true, { s with
        voter_balance := hmEntryModify s.voter_balance o (fun v => v - a)
        vote_num := hmEntryModifyOrInsert s.vote_num (o, c) (fun v => v + a) a
        votes_received :=
          hmEntryModifyOrInsert s.votes_received c (fun v => v + a) a }) := by
  have hb2 : ¬ (voting_with_contrains.voter_ticket_balance s o < a) :=
    Nat.not_lt.mpr hb
  simp [voting_with_contrains.vote_candidate_without_event, hc, hb2]

theorem vwc_buy_zero_price (s : voting_with_contrains.Voting)
    (o : AccountId) (value : Nat) (hp : s.token_price = 0) :
    voting_with_contrains.buy_ticket s o value = none := by
  simp [voting_with_contrains.buy_ticket, hp]

theorem vwc_buy_fail (s : voting_with_contrains.Voting) (o : AccountId)
    (value : Nat) (hp : s.token_price ≠ 0)
    (hgt : value / s.token_price > s.balance_tokens) :
    voting_with_contrains.buy_ticket s o value = some (false, s) := by
  simp [voting_with_contrains.buy_ticket, hp, hgt]

theorem vwc_buy_success (s : voting_with_contrains.Voting) (o : AccountId)
    (value : Nat) (hp : s.token_price ≠ 0)
    (hle : value / s.token_price ≤ s.balance_tokens) :
    voting_with_contrains.buy_ticket s o value =
      some (true, { s with
        voter_balance :=
          if (hmGet s.voter_balance o).isNone then
            hmSet s.voter_balance o (value / s.token_price)
          else
            hmEntryModify s.voter_balance o (fun v => v + value / s.token_price)
        balance_tokens := s.balance_tokens - value / s.token_price }) := by
  have hgt : ¬ (value / s.token_price > s.balance_tokens) := Nat.not_lt.mpr hle
  simp [voting_with_contrains.buy_ticket, hp, hgt]

theorem voting_vcwe_false_eq (s : voting.Voting) (c : AccountId)
    (h : (voting.vote_candidate_without_event s c).1 = false) :
    voting.vote_candidate_without_event s c = (false, s) := by
  by_cases hc : c ∈ s.in_candidate_list
  · rw [(voting_vcwe_member s c hc).1] at h
    cases h
  · exact voting_vcwe_nonmember s c hc

theorem voting_vc_member (caller : AccountId) (s : voting.Voting)
    (c : AccountId) (hc : c ∈ s.in_candidate_list) :
    voting.vote_candidate caller s c
      = (true, (voting.vote_candidate_without_event s c).2,
          [{ from_ := caller, to_ := c }]) := by
  have h1 := (voting_vcwe_member s c hc).1
  simp [voting.vote_candidate, h1]

theorem voting_vc_nonmember (caller : AccountId) (s : voting.Voting)
    (c : AccountId) (hc : c ∉ s.in_candidate_list) :
    voting.vote_candidate caller s c = (false, s, []) := by
  have h1 := voting_vcwe_nonmember s c hc
  simp [voting.vote_candidate, h1]

theorem vwc_vcwe_false_eq (s : voting_with_contrains.Voting)
    (o c : AccountId) (a : Nat)
    (h : (voting_with_contrains.vote_candidate_without_event s o c a).1 = false) :
    voting_with_contrains.vote_candidate_without_event s o c a = (false, s) := by
  by_cases hc : c ∈ s.in_candidate_list
  · by_cases hb : voting_with_contrains.voter_ticket_balance s o < a
    · exact vwc_vcwe_insufficient s o c a hc hb
    · rw [vwc_vcwe_success s o c a hc (Nat.not_lt.mp hb)] at h
      cases h
  · exact vwc_vcwe_nonmember s o c a hc

theorem vwc_vc_false (caller : AccountId) (s : voting_with_contrains.Voting)
    (o c : AccountId) (a : Nat)
    (h : voting_with_contrains.vote_candidate_without_event s o c a = (false, s)) :
    voting_with_contrains.vote_candidate caller s o c a = (false, s, []) := by
  simp [voting_with_contrains.vote_candidate, h]

theorem vwc_vc_true (caller : AccountId) (s : voting_with_contrains.Voting)
    (o c : AccountId) (a : Nat) (s2 : voting_with_contrains.Voting)
    (h : voting_with_contrains.vote_candidate_without_event s o c a = (true, s2)) :
    voting_with_contrains.vote_candidate caller s o c a
      = (true, s2, [{ from_ := caller, to_ := c }]) := by
  simp [voting_with_contrains.vote_candidate, h]

theorem vwc_vcwe_success_state (s : voting_with_contrains.Voting)
    (o c : AccountId) (a : Nat) (hc : c ∈ s.in_candidate_list)
    (hb : a ≤ voting_with_contrains.voter_ticket_balance s o) :
    ∃ s2, voting_with_contrains.vote_candidate_without_event s o c a = (true, s2) ∧
      voting_with_contrains.voter_ticket_balance s2 o + a
        = voting_with_contrains.voter_ticket_balance s o ∧
      (∀ b, b ≠ o → voting_with_contrains.voter_ticket_balance s2 b
        = voting_with_contrains.voter_ticket_balance s b) ∧
      voting_with_contrains.callee_vote_of s2 o c
        = voting_with_contrains.callee_vote_of s o c + a ∧
      (∀ x y, (x, y) ≠ (o, c) → voting_with_contrains.callee_vote_of s2 x y
        = voting_with_contrains.callee_vote_of s x y) ∧
      voting_with_contrains.total_votes_for s2 c
        = voting_with_contrains.total_votes_for s c + a ∧
      (∀ d, d ≠ c → voting_with_contrains.total_votes_for s2 d
        = voting_with_contrains.total_votes_for s d) ∧
      s2.balance_tokens = s.balance_tokens ∧
      s2.candidate_list = s.candidate_list ∧
      s2.in_candidate_list = s.in_candidate_list ∧
      s2.total_tokens = s.total_tokens ∧
      s2.token_price = s.token_price ∧
      hmSum s2.voter_balance + a = hmSum s.voter_balance ∧
      hmSum s2.vote_num = hmSum s.vote_num + a ∧
      hmSum s2.votes_received = hmSum s.votes_received + a ∧
      (∀ p ∈ s2.votes_received, p.1 = c ∨ p ∈ s.votes_received) := by
  refine ⟨_, vwc_vcwe_success s o c a hc hb, ?_, ?_, ?_, ?_, ?_, ?_, rfl, rfl, rfl,
    rfl, rfl, ?_, ?_, ?_, ?_⟩
  · exact hmGetD_emod_sub_self s.voter_balance o a hb
  · intro b hbo
    exact hmGetD_emod_ne s.voter_balance o (fun v => v - a) b hbo
  · exact hmGetD_emoi_add_self s.vote_num (o, c) a
  · intro x y hxy
    exact hmGetD_emoi_ne s.vote_num (o, c) (fun v => v + a) a (x, y) hxy
  · exact hmGetD_emoi_add_self s.votes_received c a
  · intro d hdc
    exact hmGetD_emoi_ne s.votes_received c (fun v => v + a) a d hdc
  · exact hmSum_emod_sub s.voter_balance o a hb
  · exact hmSum_emoi_add s.vote_num (o, c) a
  · exact hmSum_emoi_add s.votes_received c a
  · intro p hp
    exact hm_mem_emoi s.votes_received c (fun v => v + a) a p hp

theorem vwc_buy_success_state (s : voting_with_contrains.Voting)
    (o : AccountId) (value : Nat) (hp : s.token_price ≠ 0)
    (hle : value / s.token_price ≤ s.balance_tokens) :
    ∃ s2, voting_with_contrains.buy_ticket s o value = some (true, s2) ∧
      voting_with_contrains.voter_ticket_balance s2 o
        = voting_with_contrains.voter_ticket_balance s o + value / s.token_price ∧
      (∀ b, b ≠ o → voting_with_contrains.voter_ticket_balance s2 b
        = voting_with_contrains.voter_ticket_balance s b) ∧
      s2.balance_tokens + value / s.token_price = s.balance_tokens ∧
      s2.votes_received = s.votes_received ∧
      s2.vote_num = s.vote_num ∧
      s2.candidate_list = s.candidate_list ∧
      s2.in_candidate_list = s.in_candidate_list ∧
      s2.total_tokens = s.total_tokens ∧
      s2.token_price = s.token_price ∧
      hmSum s2.voter_balance = hmSum s.voter_balance + value / s.token_price := by
  refine ⟨_, vwc_buy_success s o value hp hle, ?_, ?_, ?_, rfl, rfl, rfl, rfl,
    rfl, rfl, ?_⟩
  · exact hm_buyvb_getD_self s.voter_balance o (value / s.token_price)
  · intro b hbo
    exact hm_buyvb_getD_ne s.voter_balance o (value / s.token_price) b hbo
  · show s.balance_tokens - value / s.token_price + value / s.token_price
      = s.balance_tokens
    omega
  · exact hm_buyvb_sum s.voter_balance o (value / s.token_price)

theorem vwc_runOp_inv (s : voting_with_contrains.Voting)
    (op : voting_with_contrains.Op) (s2 : voting_with_contrains.Voting)
    (h : voting_with_contrains.runOp s op = some s2) :
    s2.candidate_list = s.candidate_list ∧
    s2.in_candidate_list = s.in_candidate_list ∧
    s2.total_tokens = s.total_tokens ∧
    s2.token_price = s.token_price ∧
    (voting_with_contrains.Conserved s → voting_with_contrains.Conserved s2) := by
  cases op with
  | buy o v =>
    have hdef : voting_with_contrains.runOp s (voting_with_contrains.Op.buy o v)
        = (voting_with_contrains.buy_ticket s o v).map (fun r => r.2) := rfl
    by_cases hp : s.token_price = 0
    · rw [hdef, vwc_buy_zero_price s o v hp] at h
      cases h
    · by_cases hgt : v / s.token_price > s.balance_tokens
      · rw [hdef, vwc_buy_fail s o v hp hgt] at h
        have h2 : some s = some s2 := h
        have hs2 : s2 = s := (Option.some.inj h2).symm
        subst hs2
        exact ⟨rfl, rfl, rfl, rfl, fun hcv => hcv⟩
      · obtain ⟨s2A, hbuy, _, _, hbal, hvr, hvn, hcl, hicl, htt, htp, hsum⟩ :=
          vwc_buy_success_state s o v hp (Nat.not_lt.mp hgt)
        rw [hdef, hbuy] at h
        have h2 : some s2A = some s2 := h
        have hs2 : s2 = s2A := (Option.some.inj h2).symm
        subst hs2
        refine ⟨hcl, hicl, htt, htp, fun hcv => ?_⟩
        obtain ⟨hc1, hc2⟩ := hcv
        constructor
        · rw [hsum, hvn, htt]
          omega
        · rw [hvr, hvn]
          exact hc2
  | vote caller o c a =>
    have hdef : voting_with_contrains.runOp s
          (voting_with_contrains.Op.vote caller o c a)
        = some (voting_with_contrains.vote_candidate caller s o c a).2.1 := rfl
    rw [hdef] at h
    simp only [Option.some.injEq] at h
    by_cases hc : c ∈ s.in_candidate_list
    · by_cases hb : voting_with_contrains.voter_ticket_balance s o < a
      · rw [vwc_vc_false caller s o c a (vwc_vcwe_insufficient s o c a hc hb)] at h
        have hs2 : s2 = s := h.symm
        subst hs2
        exact ⟨rfl, rfl, rfl, rfl, fun hcv => hcv⟩
      · obtain ⟨s2A, hvc, hbalo, _, _, _, _, _, hbt, hcl, hicl, htt, htp,
          hsvb, hsvn, hsvr, _⟩ :=
          vwc_vcwe_success_state s o c a hc (Nat.not_lt.mp hb)
        rw [vwc_vc_true caller s o c a s2A hvc] at h
        have hs2 : s2 = s2A := h.symm
        subst hs2
        refine ⟨hcl, hicl, htt, htp, fun hcv => ?_⟩
        obtain ⟨hc1, hc2⟩ := hcv
        constructor
        · rw [hbt, hsvn, htt]
          omega
        · rw [hsvr, hsvn, hc2]
    · rw [vwc_vc_false caller s o c a (vwc_vcwe_nonmember s o c a hc)] at h
      have hs2 : s2 = s := h.symm
      subst hs2
      exact ⟨rfl, rfl, rfl, rfl, fun hcv => hcv⟩

theorem vwc_runOps_inv (ops : List voting_with_contrains.Op)
    (s s2 : voting_with_contrains.Voting)
    (h : voting_with_contrains.runOps s ops = some s2) :
    s2.candidate_list = s.candidate_list ∧
    s2.in_candidate_list = s.in_candidate_list ∧
    s2.total_tokens = s.total_tokens ∧
    s2.token_price = s.token_price ∧
    (voting_with_contrains.Conserved s → voting_with_contrains.Conserved s2) := by
  induction ops generalizing s with
  | nil =>
    simp only [voting_with_contrains.runOps, Option.some.injEq] at h
    subst h
    exact ⟨rfl, rfl, rfl, rfl, fun hcv => hcv⟩
  | cons op ops ih =>
    cases hro : voting_with_contrains.runOp s op with
    | none => simp [voting_with_contrains.runOps, hro] at h
    | some s3 =>
      have h3 : voting_with_contrains.runOps s3 ops = some s2 := by
        simpa [voting_with_contrains.runOps, hro] using h
      have h1 := vwc_runOp_inv s op s3 hro
      have h2 := ih s3 h3
      exact ⟨h2.1.trans h1.1, h2.2.1.trans h1.2.1, h2.2.2.1.trans h1.2.2.1,
        h2.2.2.2.1.trans h1.2.2.2.1, fun hcv => h2.2.2.2.2 (h1.2.2.2.2 hcv)⟩

/-! ## The claims -/

/-- Claim C1: in the extended variant, `cast_vote(voter, candidate, quantity)`
checks candidate membership first and the voter's ticket balance second,
returning `false` with the state untouched when either check fails; on
success it returns `true` and the voter balance drops, the (voter,
candidate) pair count rises and the candidate tally rises, each by exactly
`quantity` (entries created at `quantity` if absent, since the default
read is 0). -/
theorem claim_C1 (s : voting_with_contrains.Voting) (o c : AccountId) (a : Nat) :
    (c ∉ s.in_candidate_list →
      voting_with_contrains.vote_candidate_without_event s o c a = (false, s)) ∧
    (c ∈ s.in_candidate_list →
      voting_with_contrains.voter_ticket_balance s o < a →
      voting_with_contrains.vote_candidate_without_event s o c a = (false, s)) ∧
    (c ∈ s.in_candidate_list →
      a ≤ voting_with_contrains.voter_ticket_balance s o →
      (voting_with_contrains.vote_candidate_without_event s o c a).1 = true ∧
      voting_with_contrains.voter_ticket_balance
          (voting_with_contrains.vote_candidate_without_event s o c a).2 o + a
        = voting_with_contrains.voter_ticket_balance s o ∧
      voting_with_contrains.callee_vote_of
          (voting_with_contrains.vote_candidate_without_event s o c a).2 o c
        = voting_with_contrains.callee_vote_of s o c + a ∧
      voting_with_contrains.total_votes_for
          (voting_with_contrains.vote_candidate_without_event s o c a).2 c
        = voting_with_contrains.total_votes_for s c + a) := by
  refine ⟨fun hc => vwc_vcwe_nonmember s o c a hc,
    fun hc hb => vwc_vcwe_insufficient s o c a hc hb,
    fun hc hb => ?_⟩
  obtain ⟨s2A, hvc, h1, _, h3, _, h5, _, _, _, _, _, _, _, _, _, _⟩ :=
    vwc_vcwe_success_state s o c a hc hb
  rw [hvc]
  exact ⟨rfl, h1, h3, h5⟩

theorem claim_C1_witness :
    (1 : AccountId) ∈ sE2.in_candidate_list ∧
    (1 : Nat) ≤ voting_with_contrains.voter_ticket_balance sE2 5 ∧
    ((voting_with_contrains.vote_candidate_without_event sE2 5 1 1).1 = true ∧
     voting_with_contrains.voter_ticket_balance
         (voting_with_contrains.vote_candidate_without_event sE2 5 1 1).2 5 + 1
       = voting_with_contrains.voter_ticket_balance sE2 5 ∧
     voting_with_contrains.callee_vote_of
         (voting_with_contrains.vote_candidate_without_event sE2 5 1 1).2 5 1
       = voting_with_contrains.callee_vote_of sE2 5 1 + 1 ∧
     voting_with_contrains.total_votes_for
         (voting_with_contrains.vote_candidate_without_event sE2 5 1 1).2 1
       = voting_with_contrains.total_votes_for sE2 1 + 1) :=
  ⟨by decide, by decide, (claim_C1 sE2 5 1 1).2.2 (by decide) (by decide)⟩

/-- Claim C2: in the extended variant (with a non-zero unit price, which
the claim's floor division presupposes; the zero-price divisor panic is
claim C8), `buy_tickets` computes `quantity = payment / unit_price` by
floor division, fails with no state change when `quantity` exceeds the
remaining supply, and otherwise succeeds, adding `quantity` to the buyer's
balance and subtracting it from the remaining supply (which never
underflows); a payment below the unit price is a successful no-op leaving
every balance and the remaining supply unchanged. -/
theorem claim_C2 (s : voting_with_contrains.Voting) (o : AccountId)
    (value : Nat) (hp : s.token_price ≠ 0) :
    (value / s.token_price > s.balance_tokens →
      voting_with_contrains.buy_ticket s o value = some (false, s)) ∧
    (value / s.token_price ≤ s.balance_tokens →
      ∀ r s2, voting_with_contrains.buy_ticket s o value = some (r, s2) →
        r = true ∧
        voting_with_contrains.voter_ticket_balance s2 o
          = voting_with_contrains.voter_ticket_balance s o
              + value / s.token_price ∧
        (∀ b, b ≠ o → voting_with_contrains.voter_ticket_balance s2 b
          = voting_with_contrains.voter_ticket_balance s b) ∧
        s2.balance_tokens + value / s.token_price = s.balance_tokens) ∧
    (value < s.token_price →
      ∀ r s2, voting_with_contrains.buy_ticket s o value = some (r, s2) →
        r = true ∧
        (∀ b, voting_with_contrains.voter_ticket_balance s2 b
          = voting_with_contrains.voter_ticket_balance s b) ∧
        s2.balance_tokens = s.balance_tokens) := by
  refine ⟨fun hgt => vwc_buy_fail s o value hp hgt, ?_, ?_⟩
  · intro hle r s2 hbuy
    obtain ⟨s2A, hbuyA, h1, h2, h3, _⟩ := vwc_buy_success_state s o value hp hle
    rw [hbuyA] at hbuy
    injection hbuy with hpair
    injection hpair with hr hs
    subst hs
    exact ⟨hr.symm, h1, h2, h3⟩
  · intro hlt r s2 hbuy
    have hq : value / s.token_price = 0 := Nat.div_eq_of_lt hlt
    have hle : value / s.token_price ≤ s.balance_tokens := by omega
    obtain ⟨s2A, hbuyA, h1, h2, h3, _⟩ := vwc_buy_success_state s o value hp hle
    rw [hbuyA] at hbuy
    injection hbuy with hpair
    injection hpair with hr hs
    subst hs
    refine ⟨hr.symm, ?_, by omega⟩
    intro b
    by_cases hbo : b = o
    · subst hbo
      omega
    · exact h2 b hbo

theorem claim_C2_witness :
    sE4.token_price ≠ 0 ∧
    (20 : Nat) / sE4.token_price > sE4.balance_tokens ∧
    voting_with_contrains.buy_ticket sE4 5 20 = some (false, sE4) :=
  ⟨by decide, by decide, (claim_C2 sE4 5 20 (by decide)).1 (by decide)⟩

/-- Claim C8: `buy_ticket` divides by `token_price` with no zero guard, so
on any instance constructed with `token_price = 0` every `buy_ticket` call
panics with a division by zero (modelled as `none`). -/
theorem claim_C8 (lists : List AccountId) (t : Nat)
    (s : voting_with_contrains.Voting) (o : AccountId) (value : Nat)
    (h : voting_with_contrains.new lists t 0 = some s) :
    voting_with_contrains.buy_ticket s o value = none := by
  have hp := (vwc_new_elim lists t 0 s h).2.2.2.2.2.1
  exact vwc_buy_zero_price s o value hp

theorem claim_C8_witness :
    voting_with_contrains.new [1, 2] 10 0 = some sE3 ∧
    voting_with_contrains.buy_ticket sE3 5 7 = none :=
  ⟨by decide, claim_C8 [1, 2] 10 sE3 5 7 (by decide)⟩

/-- Claim C9: in the extended variant a quantity-0 `cast_vote` on a
registered candidate succeeds for every voter (even one with zero ticket
balance), emits exactly one vote event, and leaves all voter balances,
pair counts, tallies and the remaining supply unchanged. -/
theorem claim_C9 (caller : AccountId) (s : voting_with_contrains.Voting)
    (v c : AccountId) (hc : c ∈ s.in_candidate_list) :
    (voting_with_contrains.vote_candidate caller s v c 0).1 = true ∧
    (voting_with_contrains.vote_candidate caller s v c 0).2.2
      = [{ from_ := caller, to_ := c }] ∧
    (∀ b, voting_with_contrains.voter_ticket_balance
        (voting_with_contrains.vote_candidate caller s v c 0).2.1 b
      = voting_with_contrains.voter_ticket_balance s b) ∧
    (∀ x y, voting_with_contrains.callee_vote_of
        (voting_with_contrains.vote_candidate caller s v c 0).2.1 x y
      = voting_with_contrains.callee_vote_of s x y) ∧
    (∀ d, voting_with_contrains.total_votes_for
        (voting_with_contrains.vote_candidate caller s v c 0).2.1 d
      = voting_with_contrains.total_votes_for s d) ∧
    ((voting_with_contrains.vote_candidate caller s v c 0).2.1).balance_tokens
      = s.balance_tokens := by
  have hb : (0 : Nat) ≤ voting_with_contrains.voter_ticket_balance s v :=
    Nat.zero_le _
  obtain ⟨s2A, hvc, h1, h2, h3, h4, h5, h6, h7, _, _, _, _, _, _, _, _⟩ :=
    vwc_vcwe_success_state s v c 0 hc hb
  have hvt := vwc_vc_true caller s v c 0 s2A hvc
  rw [hvt]
  refine ⟨rfl, rfl, ?_, ?_, ?_, h7⟩
  · intro b
    by_cases hbo : b = v
    · subst hbo
      show voting_with_contrains.voter_ticket_balance s2A b
        = voting_with_contrains.voter_ticket_balance s b
      omega
    · exact h2 b hbo
  · intro x y
    by_cases hxy : (x, y) = (v, c)
    · have hx : x = v := congrArg Prod.fst hxy
      have hy : y = c := congrArg Prod.snd hxy
      subst hx
      subst hy
      show voting_with_contrains.callee_vote_of s2A x y
        = voting_with_contrains.callee_vote_of s x y
      omega
    · exact h4 x y hxy
  · intro d
    by_cases hdc : d = c
    · subst hdc
      show voting_with_contrains.total_votes_for s2A d
        = voting_with_contrains.total_votes_for s d
      omega
    · exact h6 d hdc

theorem claim_C9_witness :
    (1 : AccountId) ∈ sE2.in_candidate_list ∧
    (voting_with_contrains.vote_candidate 9 sE2 7 1 0).1 = true ∧
    (voting_with_contrains.vote_candidate 9 sE2 7 1 0).2.2
      = [{ from_ := 9, to_ := 1 }] ∧
    voting_with_contrains.voter_ticket_balance
        (voting_with_contrains.vote_candidate 9 sE2 7 1 0).2.1 7
      = voting_with_contrains.voter_ticket_balance sE2 7 ∧
    ((voting_with_contrains.vote_candidate 9 sE2 7 1 0).2.1).balance_tokens
      = sE2.balance_tokens := by
  have h := claim_C9 9 sE2 7 1 (by decide)
  exact ⟨by decide, h.1, h.2.1, h.2.2.1 7, h.2.2.2.2.2⟩

/-- Claim C3: every mutating operation that returns `false` leaves the
state unchanged and emits no event, and exactly one vote event is emitted
per successful vote cast (`buy_ticket` emits no event at all — its
embedding returns no event component because the source never calls
`emit_event` there). -/
theorem claim_C3 :
    (∀ (caller : AccountId) (s : voting.Voting) (c : AccountId),
      ((voting.vote_candidate caller s c).1 = false →
        (voting.vote_candidate caller s c).2.1 = s ∧
        (voting.vote_candidate caller s c).2.2 = []) ∧
      ((voting.vote_candidate caller s c).2.2).length
        = (if (voting.vote_candidate caller s c).1 then 1 else 0)) ∧
    (∀ (caller : AccountId) (s : voting_with_contrains.Voting)
        (o c : AccountId) (a : Nat),
      ((voting_with_contrains.vote_candidate caller s o c a).1 = false →
        (voting_with_contrains.vote_candidate caller s o c a).2.1 = s ∧
        (voting_with_contrains.vote_candidate caller s o c a).2.2 = []) ∧
      ((voting_with_contrains.vote_candidate caller s o c a).2.2).length
        = (if (voting_with_contrains.vote_candidate caller s o c a).1
           then 1 else 0)) ∧
    (∀ (s : voting_with_contrains.Voting) (o : AccountId) (v : Nat)
        (s2 : voting_with_contrains.Voting),
      voting_with_contrains.buy_ticket s o v = some (false, s2) → s2 = s) := by
  refine ⟨?_, ?_, ?_⟩
  · intro caller s c
    by_cases hc : c ∈ s.in_candidate_list
    · rw [voting_vc_member caller s c hc]
      exact ⟨fun h => Bool.noConfusion h, rfl⟩
    · rw [voting_vc_nonmember caller s c hc]
      exact ⟨fun _ => ⟨rfl, rfl⟩, rfl⟩
  · intro caller s o c a
    cases hb : (voting_with_contrains.vote_candidate_without_event s o c a).1 with
    | false =>
      have he := vwc_vcwe_false_eq s o c a hb
      rw [vwc_vc_false caller s o c a he]
      exact ⟨fun _ => ⟨rfl, rfl⟩, rfl⟩
    | true =>
      have he : voting_with_contrains.vote_candidate_without_event s o c a
          = (true, (voting_with_contrains.vote_candidate_without_event s o c a).2) := by
        rw [← hb]
      rw [vwc_vc_true caller s o c a _ he]
      exact ⟨fun h => Bool.noConfusion h, rfl⟩
  · intro s o v s2 hbuy
    by_cases hp : s.token_price = 0
    · rw [vwc_buy_zero_price s o v hp] at hbuy
      cases hbuy
    · by_cases hgt : v / s.token_price > s.balance_tokens
      · rw [vwc_buy_fail s o v hp hgt] at hbuy
        injection hbuy with hpair
        injection hpair with hr hs
        exact hs.symm
      · obtain ⟨s2A, hbuyA, _⟩ := vwc_buy_success_state s o v hp (Nat.not_lt.mp hgt)
        rw [hbuyA] at hbuy
        injection hbuy with hpair
        injection hpair with hr hs
        cases hr

theorem claim_C3_witness :
    (voting.vote_candidate 9 sB0 7).1 = false ∧
    (voting.vote_candidate 9 sB0 7).2.1 = sB0 ∧
    (voting.vote_candidate 9 sB0 7).2.2 = [] := by
  have h := (claim_C3.1 9 sB0 7).1 (by decide)
  exact ⟨by decide, h.1, h.2⟩

/-- Claim C4: in the basic variant, `vote` on a non-member returns `false`
with no effect; on a member it increments that candidate's counter
(initialising from 0), emits one event carrying the caller and the
candidate, and returns `true`; N successful votes from a fresh
construction yield tally exactly N, and tallies are monotone in every
call. -/
theorem claim_C4 (caller : AccountId) (s : voting.Voting) (c : AccountId)
    (lists : List AccountId) (s0 : voting.Voting) (n : Nat) :
    (c ∉ s.in_candidate_list →
      voting.vote_candidate caller s c = (false, s, [])) ∧
    (c ∈ s.in_candidate_list →
      voting.vote_candidate caller s c
        = (true, (voting.vote_candidate_without_event s c).2,
            [{ from_ := caller, to_ := c }]) ∧
      voting.total_votes_for (voting.vote_candidate_without_event s c).2 c
        = voting.total_votes_for s c + 1) ∧
    (voting.new lists = some s0 → c ∈ s0.in_candidate_list →
      voting.total_votes_for (voting.voteN s0 c n) c = n) ∧
    (∀ d, voting.total_votes_for s d
      ≤ voting.total_votes_for (voting.vote_candidate_without_event s c).2 d) := by
  refine ⟨fun hc => voting_vc_nonmember caller s c hc,
    fun hc => ⟨voting_vc_member caller s c hc, (voting_vcwe_member s c hc).2⟩,
    fun h0 hc => ?_, fun d => voting_tally_mono s c d⟩
  have hn := voting_voteN_tally s0 c hc n
  have hz := (voting_new_elim lists s0 h0).1
  have h00 : voting.total_votes_for s0 c = 0 := by
    simp [voting.total_votes_for, voting.my_value_or_zero, hz, HM.hmGetD, HM.hmGet]
  rw [hn.1, h00]
  omega

theorem claim_C4_witness :
    voting.new [1, 2] = some sB0 ∧
    (1 : AccountId) ∈ sB0.in_candidate_list ∧
    voting.total_votes_for (voting.voteN sB0 1 3) 1 = 3 := by
  have h := (claim_C4 9 sB0 1 [1, 2] sB0 3).2.2.1 (by decide) (by decide)
  exact ⟨by decide, by decide, h⟩

/-- Claim C5: in both variants, construction fails (the derived
membership-set size differs from the input length) exactly on inputs with
duplicates, and on duplicate-free inputs it succeeds with `len()` equal to
the input length. -/
theorem claim_C5 (lists : List AccountId) (t p : Nat) :
    (¬ lists.Nodup →
      voting.new lists = none ∧ voting_with_contrains.new lists t p = none) ∧
    (lists.Nodup →
      (voting.new lists).isSome ∧
      (voting_with_contrains.new lists t p).isSome ∧
      (∀ s, voting.new lists = some s →
        voting.get_candidates_len s = lists.length) ∧
      (∀ s, voting_with_contrains.new lists t p = some s →
        voting_with_contrains.get_candidates_len s = lists.length)) := by
  constructor
  · intro hnd
    have hne : lists.dedup.length ≠ lists.length :=
      fun h => hnd ((dedup_length_eq_iff_nodup lists).mp h)
    constructor
    · simp [voting.new, hne]
    · simp [voting_with_contrains.new, hne]
  · intro hnd
    have he : lists.dedup.length = lists.length :=
      (dedup_length_eq_iff_nodup lists).mpr hnd
    refine ⟨by simp [voting.new, he], by simp [voting_with_contrains.new, he],
      ?_, ?_⟩
    · intro s hs
      have hf := voting_new_elim lists s hs
      simp [voting.get_candidates_len, hf.2.1]
    · intro s hs
      have hf := vwc_new_elim lists t p s hs
      simp [voting_with_contrains.get_candidates_len, hf.2.1]

theorem claim_C5_witness :
    ¬ ([1, 1] : List AccountId).Nodup ∧
    voting.new [1, 1] = none ∧
    voting_with_contrains.new [1, 1] 5 2 = none ∧
    ([1, 2] : List AccountId).Nodup ∧
    (voting.new [1, 2]).isSome ∧
    (voting_with_contrains.new [1, 2] 5 2).isSome := by
  have h1 := (claim_C5 [1, 1] 5 2).1 (by decide)
  have h2 := (claim_C5 [1, 2] 5 2).2 (by decide)
  exact ⟨by decide, h1.1, h1.2, by decide, h2.1, h2.2.1⟩

theorem voting_tallyinv_preserved (s : voting.Voting) (c : AccountId)
    (hinv : voting.TallyInv s) :
    voting.TallyInv (voting.vote_candidate_without_event s c).2 := by
  by_cases hc : c ∈ s.in_candidate_list
  · intro p hp
    rw [(voting_vcwe_fields s c).1]
    have hvr : ((voting.vote_candidate_without_event s c).2).votes_received
        = hmEntryModifyOrInsert s.votes_received c (fun v => v + 1) 1 := by
      simp [voting.vote_candidate_without_event, hc]
    rw [hvr] at hp
    rcases hm_mem_emoi s.votes_received c (fun v => v + 1) 1 p hp with h1 | h1
    · rw [h1]
      exact hc
    · exact hinv p h1
  · rw [voting_vcwe_nonmember s c hc]
    exact hinv

theorem vwc_vcwe_icl (s : voting_with_contrains.Voting) (o c : AccountId)
    (a : Nat) :
    ((voting_with_contrains.vote_candidate_without_event s o c a).2).in_candidate_list
      = s.in_candidate_list := by
  by_cases hc : c ∈ s.in_candidate_list
  · by_cases hb : voting_with_contrains.voter_ticket_balance s o < a
    · rw [vwc_vcwe_insufficient s o c a hc hb]
    · rw [vwc_vcwe_success s o c a hc (Nat.not_lt.mp hb)]
  · rw [vwc_vcwe_nonmember s o c a hc]

theorem vwc_tallyinv_preserved (s : voting_with_contrains.Voting)
    (o c : AccountId) (a : Nat)
    (hinv : voting_with_contrains.TallyInv s) :
    voting_with_contrains.TallyInv
      (voting_with_contrains.vote_candidate_without_event s o c a).2 := by
  by_cases hc : c ∈ s.in_candidate_list
  · by_cases hb : voting_with_contrains.voter_ticket_balance s o < a
    · rw [vwc_vcwe_insufficient s o c a hc hb]
      exact hinv
    · obtain ⟨s2A, hvc, _, _, _, _, _, _, _, _, hicl, _, _, _, _, _, hmem⟩ :=
        vwc_vcwe_success_state s o c a hc (Nat.not_lt.mp hb)
      rw [hvc]
      intro p hp
      show p.1 ∈ s2A.in_candidate_list
      rw [hicl]
      rcases hmem p hp with h1 | h1
      · rw [h1]
        exact hc
      · exact hinv p h1
  · rw [vwc_vcwe_nonmember s o c a hc]
    exact hinv

theorem vwc_tally_mono (s : voting_with_contrains.Voting) (o c : AccountId)
    (a : Nat) (d : AccountId) :
    voting_with_contrains.total_votes_for s d
      ≤ voting_with_contrains.total_votes_for
          (voting_with_contrains.vote_candidate_without_event s o c a).2 d := by
  by_cases hc : c ∈ s.in_candidate_list
  · by_cases hb : voting_with_contrains.voter_ticket_balance s o < a
    · rw [vwc_vcwe_insufficient s o c a hc hb]
    · obtain ⟨s2A, hvc, _, _, _, _, h5, h6, _, _, _, _, _, _, _, _, _⟩ :=
        vwc_vcwe_success_state s o c a hc (Nat.not_lt.mp hb)
      rw [hvc]
      show voting_with_contrains.total_votes_for s d
        ≤ voting_with_contrains.total_votes_for s2A d
      by_cases hdc : d = c
      · subst hdc
        omega
      · rw [h6 d hdc]
  · rw [vwc_vcwe_nonmember s o c a hc]

theorem vwc_buy_tally_inv (s : voting_with_contrains.Voting) (o : AccountId)
    (v : Nat) (r : Bool) (s2 : voting_with_contrains.Voting)
    (hbuy : voting_with_contrains.buy_ticket s o v = some (r, s2)) :
    (voting_with_contrains.TallyInv s → voting_with_contrains.TallyInv s2) ∧
    (∀ d, voting_with_contrains.total_votes_for s2 d
      = voting_with_contrains.total_votes_for s d) := by
  by_cases hp : s.token_price = 0
  · rw [vwc_buy_zero_price s o v hp] at hbuy
    cases hbuy
  · by_cases hgt : v / s.token_price > s.balance_tokens
    · rw [vwc_buy_fail s o v hp hgt] at hbuy
      injection hbuy with hpair
      injection hpair with hr hs
      subst hs
      exact ⟨fun hinv => hinv, fun d => rfl⟩
    · obtain ⟨s2A, hbuyA, _, _, _, hvr, _, _, hicl, _, _, _⟩ :=
        vwc_buy_success_state s o v hp (Nat.not_lt.mp hgt)
      rw [hbuyA] at hbuy
      injection hbuy with hpair
      injection hpair with hr hs
      subst hs
      constructor
      · intro hinv p hp2
        rw [hvr] at hp2
        rw [hicl]
        exact hinv p hp2
      · intro d
        show HM.hmGetD s2A.votes_received d = HM.hmGetD s.votes_received d
        rw [hvr]

/-- Claim C6: in every state reached by any sequence of operations from a
fresh construction, `current_votes()` lists exactly the candidates in
their original registration order, each paired (positionally in the basic
variant, as a record in the extended variant) with its current tally,
0 when never voted for. -/
theorem claim_C6 :
    (∀ (lists : List AccountId) (s0 : voting.Voting) (cs : List AccountId),
      voting.new lists = some s0 →
      (voting.get_current_votes (voting.runVotes s0 cs)).candidate_list
        = lists ∧
      (voting.get_current_votes (voting.runVotes s0 cs)).current_vote
        = lists.map (fun c =>
            voting.total_votes_for (voting.runVotes s0 cs) c)) ∧
    (∀ (lists : List AccountId) (t p : Nat)
        (s0 s : voting_with_contrains.Voting)
        (ops : List voting_with_contrains.Op),
      voting_with_contrains.new lists t p = some s0 →
      voting_with_contrains.runOps s0 ops = some s →
      voting_with_contrains.get_current_votes s
        = lists.map (fun c =>
            { candidate := c
              vote := voting_with_contrains.total_votes_for s c })) := by
  constructor
  · intro lists s0 cs h0
    have hcl : (voting.runVotes s0 cs).candidate_list = lists := by
      rw [(voting_runVotes_fields s0 cs).1, (voting_new_elim lists s0 h0).2.1]
    constructor
    · show (voting.runVotes s0 cs).candidate_list = lists
      exact hcl
    · show ((voting.runVotes s0 cs).candidate_list).map _ = _
      rw [hcl]
      rfl
  · intro lists t p s0 s ops h0 hops
    have hcl : s.candidate_list = lists := by
      rw [(vwc_runOps_inv ops s0 s hops).1, (vwc_new_elim lists t p s0 h0).2.1]
    show (s.candidate_list).map _ = _
    rw [hcl]
    rfl

theorem claim_C6_witness :
    voting.new [1, 2] = some sB0 ∧
    (voting.get_current_votes (voting.runVotes sB0 [1, 1, 7])).candidate_list
      = [1, 2] ∧
    voting_with_contrains.new [1, 2] 10 1 = some sE0 ∧
    voting_with_contrains.runOps sE0
        [voting_with_contrains.Op.buy 5 3,
         voting_with_contrains.Op.vote 9 5 1 2] = some sE2 ∧
    voting_with_contrains.get_current_votes sE2
      = [1, 2].map (fun c =>
          { candidate := c
            vote := voting_with_contrains.total_votes_for sE2 c }) := by
  have h1 := (claim_C6.1 [1, 2] sB0 [1, 1, 7] (by decide)).1
  have h2 := claim_C6.2 [1, 2] 10 1 sE0 sE2
      [voting_with_contrains.Op.buy 5 3, voting_with_contrains.Op.vote 9 5 1 2]
      (by decide) (by decide)
  exact ⟨by decide, h1, by decide, by decide, h2⟩

/-- Claim C7: in both variants every operation preserves the invariant
that a tally entry exists only for candidates in the Candidate Set, the
candidate set itself never changes, no operation ever decreases any
tally, and a positive tally stays positive. -/
theorem claim_C7 :
    (∀ (s : voting.Voting) (c : AccountId), voting.TallyInv s →
      voting.TallyInv (voting.vote_candidate_without_event s c).2) ∧
    (∀ (s : voting.Voting) (c : AccountId),
      ((voting.vote_candidate_without_event s c).2).in_candidate_list
        = s.in_candidate_list) ∧
    (∀ (s : voting.Voting) (c d : AccountId),
      voting.total_votes_for s d
        ≤ voting.total_votes_for (voting.vote_candidate_without_event s c).2 d) ∧
    (∀ (s : voting.Voting) (c d : AccountId),
      0 < voting.total_votes_for s d →
      0 < voting.total_votes_for (voting.vote_candidate_without_event s c).2 d) ∧
    (∀ (s : voting_with_contrains.Voting) (o c : AccountId) (a : Nat),
      voting_with_contrains.TallyInv s →
      voting_with_contrains.TallyInv
        (voting_with_contrains.vote_candidate_without_event s o c a).2) ∧
    (∀ (s : voting_with_contrains.Voting) (o c : AccountId) (a : Nat),
      ((voting_with_contrains.vote_candidate_without_event s o c a).2).in_candidate_list
        = s.in_candidate_list) ∧
    (∀ (s : voting_with_contrains.Voting) (o c : AccountId) (a : Nat)
        (d : AccountId),
      voting_with_contrains.total_votes_for s d
        ≤ voting_with_contrains.total_votes_for
            (voting_with_contrains.vote_candidate_without_event s o c a).2 d) ∧
    (∀ (s : voting_with_contrains.Voting) (o c : AccountId) (a : Nat)
        (d : AccountId),
      0 < voting_with_contrains.total_votes_for s d →
      0 < voting_with_contrains.total_votes_for
            (voting_with_contrains.vote_candidate_without_event s o c a).2 d) ∧
    (∀ (s : voting_with_contrains.Voting) (o : AccountId) (v : Nat)
        (r : Bool) (s2 : voting_with_contrains.Voting),
      voting_with_contrains.buy_ticket s o v = some (r, s2) →
      (voting_with_contrains.TallyInv s →
        voting_with_contrains.TallyInv s2) ∧
      (∀ d, voting_with_contrains.total_votes_for s2 d
        = voting_with_contrains.total_votes_for s d)) := by
  refine ⟨fun s c => voting_tallyinv_preserved s c,
    fun s c => (voting_vcwe_fields s c).1,
    fun s c d => voting_tally_mono s c d,
    fun s c d h => lt_of_lt_of_le h (voting_tally_mono s c d),
    fun s o c a => vwc_tallyinv_preserved s o c a,
    fun s o c a => vwc_vcwe_icl s o c a,
    fun s o c a d => vwc_tally_mono s o c a d,
    fun s o c a d h => lt_of_lt_of_le h (vwc_tally_mono s o c a d),
    fun s o v r s2 hbuy => vwc_buy_tally_inv s o v r s2 hbuy⟩

theorem claim_C7_witness :
    voting.TallyInv sB0 ∧
    voting.TallyInv (voting.vote_candidate_without_event sB0 1).2 ∧
    voting_with_contrains.TallyInv sE2 ∧
    voting_with_contrains.TallyInv
      (voting_with_contrains.vote_candidate_without_event sE2 5 1 1).2 ∧
    0 < voting_with_contrains.total_votes_for sE2 1 ∧
    0 < voting_with_contrains.total_votes_for
          (voting_with_contrains.vote_candidate_without_event sE2 5 1 1).2 1 :=
  ⟨by decide, claim_C7.1 sB0 1 (by decide), by decide,
    claim_C7.2.2.2.2.1 sE2 5 1 1 (by decide), by decide,
    claim_C7.2.2.2.2.2.2.2.1 sE2 5 1 1 1 (by decide)⟩

/-- Claim C10: in every reachable state of the extended variant the
remaining supply plus all voter balances plus all pair counts equals the
fixed `total_tokens`, the tallies sum to the pair-count total, and hence
every voter balance, pair count and tally is bounded by `total_tokens`;
as `total_tokens` is a `u32` (i.e. below `2 ^ 32`), the `u32` additions in
`buy_ticket` and `cast_vote` never overflow. -/
theorem claim_C10 (lists : List AccountId) (t p : Nat)
    (s0 s : voting_with_contrains.Voting)
    (ops : List voting_with_contrains.Op)
    (h0 : voting_with_contrains.new lists t p = some s0)
    (h : voting_with_contrains.runOps s0 ops = some s) :
    s.balance_tokens + hmSum s.voter_balance + hmSum s.vote_num = t ∧
    hmSum s.votes_received = hmSum s.vote_num ∧
    (∀ b, voting_with_contrains.voter_ticket_balance s b ≤ t) ∧
    (∀ x y, voting_with_contrains.callee_vote_of s x y ≤ t) ∧
    (∀ c, voting_with_contrains.total_votes_for s c ≤ t) ∧
    (t < 2 ^ 32 →
      (∀ b, voting_with_contrains.voter_ticket_balance s b < 2 ^ 32) ∧
      (∀ x y, voting_with_contrains.callee_vote_of s x y < 2 ^ 32) ∧
      (∀ c, voting_with_contrains.total_votes_for s c < 2 ^ 32)) := by
  have hne := vwc_new_elim lists t p s0 h0
  have hinv := vwc_runOps_inv ops s0 s h
  have hc0 : voting_with_contrains.Conserved s0 := by
    constructor
    · rw [hne.2.2.2.2.1, hne.2.2.2.2.2.2.2, hne.2.2.2.2.2.2.1, hne.2.2.2.1]
      simp [HM.hmSum]
    · rw [hne.1, hne.2.2.2.2.2.2.1]
      rfl
  have hcs := hinv.2.2.2.2 hc0
  have htt : s.total_tokens = t := hinv.2.2.1.trans hne.2.2.2.1
  obtain ⟨hc1, hc2⟩ := hcs
  rw [htt] at hc1
  have hvb : ∀ b : AccountId, HM.hmGetD s.voter_balance b ≤ t := by
    intro b
    have h1 := hmGetD_le_hmSum s.voter_balance b
    omega
  have hvn : ∀ k : AccountId × AccountId, HM.hmGetD s.vote_num k ≤ t := by
    intro k
    have h1 := hmGetD_le_hmSum s.vote_num k
    omega
  have hvr : ∀ c : AccountId, HM.hmGetD s.votes_received c ≤ t := by
    intro c
    have h1 := hmGetD_le_hmSum s.votes_received c
    omega
  exact ⟨hc1, hc2, fun b => hvb b, fun x y => hvn (x, y), fun c => hvr c,
    fun hlt => ⟨fun b => lt_of_le_of_lt (hvb b) hlt,
      fun x y => lt_of_le_of_lt (hvn (x, y)) hlt,
      fun c => lt_of_le_of_lt (hvr c) hlt⟩⟩

theorem claim_C10_witness :
    voting_with_contrains.new [1, 2] 10 1 = some sE0 ∧
    voting_with_contrains.runOps sE0
        [voting_with_contrains.Op.buy 5 3,
         voting_with_contrains.Op.vote 9 5 1 2] = some sE2 ∧
    sE2.balance_tokens + hmSum sE2.voter_balance + hmSum sE2.vote_num = 10 ∧
    voting_with_contrains.voter_ticket_balance sE2 5 ≤ 10 := by
  have h := claim_C10 [1, 2] 10 1 sE0 sE2
      [voting_with_contrains.Op.buy 5 3, voting_with_contrains.Op.vote 9 5 1 2]
      (by decide) (by decide)
  exact ⟨by decide, by decide, h.1, h.2.2.1 5⟩
